import Mathlib

/-!
Verification of the sports-card checklist application (`app.js`,
`routes/athlete-api.js`) against its natural-language specification.

The source is shallowly embedded: CSV rows become association lists from
normalized header names to cell strings, the SQLite tables become Lean
lists, and the per-request handlers become pure Lean functions mirroring
the JavaScript control flow line by line.  String primitives used by the
source (`toLowerCase`, `trim`, `includes`, `split`, `Number(...) || 0`)
are re-implemented structurally over `List Char` so that every definition
evaluates by kernel reduction.
-/

namespace Spin

/-! ## String primitives -/

/-- JavaScript / SQLite whitespace test for the characters the app can see. -/
def isWs (c : Char) : Bool :=
  c == ' ' || c == '\t' || c == '\n' || c == '\r'

/-- Drop characters satisfying `p` from both ends of a character list. -/
def trimChars (p : Char → Bool) (l : List Char) : List Char :=
  ((l.dropWhile p).reverse.dropWhile p).reverse

/-- JavaScript `String.prototype.trim()` (whitespace at both ends). -/
def jsTrim (s : String) : String :=
  String.mk (trimChars isWs s.data)

/-- SQLite `TRIM(X)`: removes space characters (only `' '`) from both ends. -/
def sqlTrim (s : String) : String :=
  String.mk (trimChars (fun c => c == ' ') s.data)

/-- ASCII lower-casing of one character, as both SQLite `LOWER` and the
JavaScript `toLowerCase` calls in the source behave on the ASCII data the
claims are about. -/
def lowerChar (c : Char) : Char :=
  if 'A' ≤ c ∧ c ≤ 'Z' then Char.ofNat (c.toNat + 32) else c

/-- Lower-casing of a string (models `toLowerCase` / SQLite `LOWER`). -/
def lowerStr (s : String) : String :=
  String.mk (s.data.map lowerChar)

/-- If `l` starts with `pat`, return the remainder after `pat`. -/
def stripPre : List Char → List Char → Option (List Char)
  | [], rest => some rest
  | _ :: _, [] => none
  | p :: ps, c :: cs => if c == p then stripPre ps cs else none

/-- Substring containment on character lists (models `String.prototype.includes`). -/
def listHasSub (pat : List Char) : List Char → Bool
  | [] => pat.isEmpty
  | c :: rest => (stripPre pat (c :: rest)).isSome || listHasSub pat rest

/-- `s.includes(pat)` from the source. -/
def strContains (s pat : String) : Bool :=
  listHasSub pat.data s.data

/-- `k.split('||')` restricted to the separator actually used by the source:
leftmost, non-overlapping splitting on the two-character separator `||`. -/
def splitBars : List Char → List (List Char)
  | '|' :: '|' :: rest => [] :: splitBars rest
  | c :: rest =>
    match splitBars rest with
    | [] => [[c]]
    | g :: gs => (c :: g) :: gs
  | [] => [[]]

/-- Parse a non-empty all-digit character list as a natural number. -/
def parseNatChars (l : List Char) : Option Nat :=
  if l.isEmpty then none
  else if l.all (fun c => '0' ≤ c ∧ c ≤ '9') then
    some (l.foldl (fun n c => n * 10 + (c.toNat - 48)) 0)
  else none

/-- `Number(r.numbering) || 0` from the aggregator, on the integer-valued
numbering strings the data model describes: an optionally `-`-signed digit
string (surrounding whitespace ignored) parses to its value, everything
else — including SQL `NULL` (`none`), the empty string and non-numeric
text such as `"/99"` — coerces to `0`. -/
def jsToNum (v : Option String) : Int :=
  match v with
  | none => 0
  | some s =>
    match trimChars isWs s.data with
    | '-' :: rest =>
      match parseNatChars rest with
      | some n => -(n : Int)
      | none => 0
    | t =>
      match parseNatChars t with
      | some n => (n : Int)
      | none => 0

/-- JavaScript truthiness of an optional string cell: `undefined`/missing and
the empty string are falsy, every other string is truthy. -/
def truthy : Option String → Bool
  | none => false
  | some s => !(s == "")

/-- JavaScript `a || b` on optional string cells. -/
def jsOr (a b : Option String) : Option String :=
  if truthy a then a else b

/-- `x || ''` — coalesce a nullable string to the empty string. -/
def orEmpty : Option String → String
  | none => ""
  | some s => s

/-- `sanitizeFileName` from `app.js`: lower-case, then replace every
character outside `[a-z0-9]` with `_`. -/
def sanitizeFileName (name : String) : String :=
  String.mk ((lowerStr name).data.map
    (fun c => if ('a' ≤ c ∧ c ≤ 'z') ∨ ('0' ≤ c ∧ c ≤ '9') then c else '_'))

/-- The deterministic store file name for a (sport, set) pair. -/
def storeName (sport set : String) : String :=
  sanitizeFileName sport ++ "_" ++ sanitizeFileName set ++ ".db"

/-- The `mapHeaders` normalizer from the upload route:
`header.trim().toLowerCase().replace(/\s+/g, '_')`. -/
def collapseWsAux : Bool → List Char → List Char
  | _, [] => []
  | prevWs, c :: rest =>
    if isWs c then (if prevWs then [] else ['_']) ++ collapseWsAux true rest
    else c :: collapseWsAux false rest

/-- Header normalization applied to every raw CSV header. -/
def normalizeHeader (s : String) : String :=
  String.mk (collapseWsAux false (trimChars isWs (lowerStr s).data))

/-! ## Ingestion model (`POST /upload-checklist` in `app.js`) -/

/-- One CSV row as produced by the parser: an association list from
normalized header name to raw cell text.  A header absent from the list
models a JavaScript `undefined` cell. -/
abbrev Row := List (String × String)

/-- `row[h]` — object property lookup. -/
def getCell (row : Row) (h : String) : Option String :=
  (row.find? (fun p => p.1 == h)).map (fun p => p.2)

/-- One record of the `cards` table (all columns nullable `TEXT`). -/
structure CardRecord where
  card_number : Option String
  athlete_name : Option String
  rookie : Option String
  subset : Option String
  card_type : Option String
deriving DecidableEq, Repr

/-- `row['athlete_full_name'] || row['athlete_name'] || row['athlete']`. -/
def resolveAthlete (row : Row) : Option String :=
  jsOr (getCell row "athlete_full_name")
    (jsOr (getCell row "athlete_name") (getCell row "athlete"))

/-- `row['type'] || row['card_type']`. -/
def resolveCardType (row : Row) : Option String :=
  jsOr (getCell row "type") (getCell row "card_type")

/-- The argument list of `insertCard.run` for one row. -/
def cardOfRow (row : Row) : CardRecord :=
  { card_number := getCell row "card_number"
    athlete_name := resolveAthlete row
    rookie := getCell row "rookie"
    subset := getCell row "subset"
    card_type := resolveCardType row }

/-- One record of the `parallels` table (minus the card id). -/
structure ParallelRecord where
  parallel_name : String
  parallel_numbering : Option String
deriving DecidableEq, Repr

/-- `h.includes('parallel') && !h.includes('numbering')` on the lower-cased
header — the parallel-name column test of the scan. -/
def isParallelHeader (h : String) : Bool :=
  strContains (lowerStr h) "parallel" && !(strContains (lowerStr h) "numbering")

/-- The parallel-pairing scan of the upload handler, recursing over the
header list; the `headers[idx + 1]` lookup of the source becomes the head
of the remaining header list.  For a parallel-name header with a truthy
cell, the numbering is the cell under the next header when that header
contains `numbering`, and the empty string otherwise (`'' : some ""`;
a missing cell under a numbering header stays `none`, i.e. SQL `NULL`). -/
def scanParallels (row : Row) : List String → List ParallelRecord
  | [] => []
  | h :: rest =>
    (if isParallelHeader h then
      match getCell row h with
      | some name =>
        if name == "" then []
        else
          [⟨name,
            match rest with
            | nh :: _ =>
              if strContains (lowerStr nh) "numbering" then getCell row nh
              else some ""
            | [] => some ""⟩]
      | none => []
    else []) ++ scanParallels row rest

/-- A populated Set Store: the two tables with their assigned row ids
(SQLite `AUTOINCREMENT` starts at 1 in a fresh database). -/
structure Store where
  cards : List (Nat × CardRecord)
  parallels : List (Nat × ParallelRecord)
deriving DecidableEq, Repr

/-- Build the store an upload of `(headers, rows)` produces: the i-th row
becomes card id `i + 1`, and its parallels reference that id. -/
def buildStore (headers : List String) (rows : List Row) : Store :=
  { cards := rows.enum.map (fun p => (p.1 + 1, cardOfRow p.2))
    parallels := (rows.enum.map
      (fun p => (scanParallels p.2 headers).map (fun q => (p.1 + 1, q)))).flatten }

/-- The upload handler keyed by whatever store previously existed for the
sanitized (sport, set) pair: `fs.unlinkSync` deletes any existing store
before a fresh database is created, so the previous store never
contributes to the result. -/
def uploadChecklist (prev : Option Store) (headers : List String) (rows : List Row) :
    Store :=
  match prev with
  | _ => buildStore headers rows

/-- The externally visible side effects of one upload, in program order:
the conditional `fs.unlinkSync(dbPath)`, table creation, then for each row
its card insert followed by its parallel inserts. -/
inductive UploadEffect where
  | deleteOldStore : UploadEffect
  | createTables : UploadEffect
  | writeCard : Nat → CardRecord → UploadEffect
  | writeParallel : Nat → ParallelRecord → UploadEffect
deriving DecidableEq, Repr

/-- The effect trace of the upload handler. -/
def uploadEffects (storeExists : Bool) (headers : List String) (rows : List Row) :
    List UploadEffect :=
  (if storeExists then [UploadEffect.deleteOldStore] else []) ++
  [UploadEffect.createTables] ++
  (rows.enum.map (fun p =>
    UploadEffect.writeCard (p.1 + 1) (cardOfRow p.2) ::
      (scanParallels p.2 headers).map
        (fun q => UploadEffect.writeParallel (p.1 + 1) q))).flatten

/-- State of the pending-row countdown in the upload handler's insert
callbacks.  `attempted` counts issued card inserts whose callback ran,
`loggedErrors` the callbacks that hit `if (err) return console.error(err)`,
`pending` the countdown variable, and `finalized` whether the
`pending === 0` branch (statement finalize, `db.close()`,
`fs.unlinkSync(filePath)`, `res.redirect(...)`) ever ran. -/
structure IngestOutcome where
  attempted : Nat
  loggedErrors : Nat
  pending : Nat
  finalized : Bool
deriving DecidableEq, Repr

/-- One card-insert callback: on error the callback returns after logging,
without touching `pending`; on success it decrements `pending` and
finalizes when the countdown reaches zero. -/
def ingestStep (st : IngestOutcome) (ok : Bool) : IngestOutcome :=
  if ok then
    { st with
      attempted := st.attempted + 1
      pending := st.pending - 1
      finalized := st.finalized || (st.pending - 1 == 0) }
  else
    { st with
      attempted := st.attempted + 1
      loggedErrors := st.loggedErrors + 1 }

/-- Run the ingestion completion logic over the per-row success flags.
Zero rows short-circuit to immediate finalization, as in the source. -/
def runIngestion (rowOk : List Bool) : IngestOutcome :=
  if rowOk.isEmpty then ⟨0, 0, 0, true⟩
  else rowOk.foldl ingestStep ⟨0, 0, rowOk.length, false⟩

/-! ## Schema detection and athlete summary (`routes/athlete-api.js`) -/

/-- `cols.some(c => String(c.name).toLowerCase() === name)` from `detectSchema`. -/
def hasCol (cols : List String) (name : String) : Bool :=
  cols.any (fun c => lowerStr c == name)

/-- The result of `detectSchema`: the concrete rookie-flag and numbering
column names, or `none` when absent. -/
structure SchemaInfo where
  rookieCol : Option String
  numberingCol : Option String
deriving DecidableEq, Repr

/-- `detectSchema` from `routes/athlete-api.js`, on the column-name lists of
the `cards` and `parallels` tables. -/
def detectSchema (cardsCols parCols : List String) : SchemaInfo :=
  { rookieCol :=
      if hasCol cardsCols "rookie" then some "rookie"
      else if hasCol cardsCols "is_rookie" then some "is_rookie" else none
    numberingCol :=
      if hasCol parCols "parallel_numbering" then some "parallel_numbering"
      else if hasCol parCols "numbering" then some "numbering" else none }

/-- One stored row of the `cards` table as the summary route reads it.
`rookieVal` is the value of the detected rookie column for this row
(`none` models SQL `NULL`, or the column being absent from the table). -/
structure DbCard where
  id : Nat
  athlete_name : Option String
  subset : Option String
  card_type : Option String
  rookieVal : Option String
deriving DecidableEq, Repr

/-- `LOWER(c.athlete_name) = LOWER(?)`: a `NULL` athlete name never
matches (SQL `NULL` comparisons are not true). -/
def matchesAthlete (cardName : Option String) (athlete : String) : Bool :=
  match cardName with
  | none => false
  | some a => lowerStr a == lowerStr athlete

/-- `CASE WHEN LOWER(TRIM(col)) = 'rookie' THEN 1 ELSE 0 END`; on `NULL`
the comparison is not true, so the `ELSE 0` arm applies. -/
def rookieCase (v : Option String) : Nat :=
  match v with
  | none => 0
  | some s => if lowerStr (sqlTrim s) == "rookie" then 1 else 0

/-- SQL `MAX` aggregation over a list of naturals: `NULL` (`none`) on an
empty list, otherwise the running maximum. -/
def sqlMax (l : List Nat) : Option Nat :=
  l.foldl
    (fun acc x =>
      match acc with
      | none => some x
      | some m => some (max m x))
    none

/-- The rookie-flag query result: `MAX(CASE ...)` over the cards rows
matching the athlete, compared against 1 (`row.flag === 1`). -/
def sqlMaxFlag (cards : List DbCard) (athlete : String) : Option Nat :=
  sqlMax ((cards.filter (fun c => matchesAthlete c.athlete_name athlete)).map
    (fun c => rookieCase c.rookieVal))

/-- `isRookie` as the handler computes it: `false` when no rookie column
was detected, otherwise the strict `MAX(CASE ...) = 1` test. -/
def isRookieOf (rookieCol : Option String) (cards : List DbCard) (athlete : String) :
    Bool :=
  match rookieCol with
  | none => false
  | some _ => sqlMaxFlag cards athlete == some 1

/-- One row of the summary's `LEFT JOIN` result:
`SELECT c.subset, c.card_type, p.<numberingCol> AS numbering`. -/
structure JoinRow where
  subset : Option String
  card_type : Option String
  numbering : Option String
deriving DecidableEq, Repr

/-- The parallels joined to one card id, projected to the detected
numbering column's value. -/
def parallelsFor (parallels : List (Nat × Option String)) (cid : Nat) :
    List (Option String) :=
  (parallels.filter (fun p => p.1 == cid)).map (fun p => p.2)

/-- The `LEFT JOIN` of cards to parallels restricted to the athlete: every
matching card contributes one row per joined parallel, or a single row
with `NULL` numbering when it has none. -/
def joinRows (cards : List DbCard) (parallels : List (Nat × Option String))
    (athlete : String) : List JoinRow :=
  ((cards.filter (fun c => matchesAthlete c.athlete_name athlete)).map
    (fun c =>
      match parallelsFor parallels c.id with
      | [] => [JoinRow.mk c.subset c.card_type none]
      | ps => ps.map (fun v => JoinRow.mk c.subset c.card_type v))).flatten

/-- Insert-or-add on the association list modelling the handler's
insertion-ordered `Map` from group key to summed numbering. -/
def upsert (m : List (String × Int)) (k : String) (n : Int) : List (String × Int) :=
  match m with
  | [] => [(k, n)]
  | (k₁, v) :: rest =>
    if k₁ == k then (k₁, v + n) :: rest else (k₁, v) :: upsert rest k n

/-- The mutable accumulators of the summary's `for (const r of rows)` loop. -/
structure AggState where
  group : List (String × Int)
  totalNumbered : Int
  autographNumbered : Int
  autographRelicNumbered : Int
deriving DecidableEq, Repr

/-- One iteration of the aggregation loop. -/
def aggStep (st : AggState) (r : JoinRow) : AggState :=
  let subset := orEmpty r.subset
  let cardType := orEmpty r.card_type
  let key := subset ++ "||" ++ cardType
  let n := jsToNum r.numbering
  let sLc := lowerStr subset
  { group := upsert st.group key n
    totalNumbered := st.totalNumbered + n
    autographNumbered := st.autographNumbered + (if sLc == "autograph" then n else 0)
    autographRelicNumbered :=
      st.autographRelicNumbered + (if sLc == "autograph relic" then n else 0) }

/-- The whole aggregation loop. -/
def aggregate (rows : List JoinRow) : AggState :=
  rows.foldl aggStep ⟨[], 0, 0, 0⟩

/-- One entry of the response's `breakdown` array. -/
structure BEntry where
  subset : String
  cardType : String
  total : Int
deriving DecidableEq, Repr

/-- `const [subset, cardType] = k.split('||')` — destructure the first two
split components (group keys always contain `||`, so at least two exist). -/
def entryOfKey (k : String) (total : Int) : BEntry :=
  match (splitBars k.data).map String.mk with
  | a :: b :: _ => ⟨a, b, total⟩
  | [a] => ⟨a, "", total⟩
  | [] => ⟨"", "", total⟩

/-- `Array.from(group.entries()).map(...)`. -/
def breakdownOf (g : List (String × Int)) : List BEntry :=
  g.map (fun p => entryOfKey p.1 p.2)

/-- `new Set(breakdown.map(b => (b.cardType || '').trim())).size`. -/
def cardTypeCountOf (bd : List BEntry) : Nat :=
  ((bd.map (fun b => jsTrim b.cardType)).dedup).length

/-- The JSON response body of `GET /api/athlete-summary`. -/
structure Summary where
  isRookie : Bool
  cardTypeCount : Nat
  totalParallelCards : Int
  autographCount : Int
  autographRelicCount : Int
  breakdown : List BEntry
deriving DecidableEq, Repr

/-- The zero-filled summary returned by both soft-fail paths. -/
def zeroSummary (isRookie : Bool) : Summary :=
  ⟨isRookie, 0, 0, 0, 0, []⟩

/-- The response built from a non-empty join result. -/
def mkSummary (isRookie : Bool) (rows : List JoinRow) : Summary :=
  let st := aggregate rows
  let bd := breakdownOf st.group
  ⟨isRookie, cardTypeCountOf bd, st.totalNumbered, st.autographNumbered,
    st.autographRelicNumbered, bd⟩

/-- The `GET /api/athlete-summary` handler after `detectSchema`: compute
the rookie flag from cards alone, return the zero-filled shape when no
numbering column was detected or the join yields no rows, and otherwise
aggregate. -/
def athleteSummary (schema : SchemaInfo) (cards : List DbCard)
    (parallels : List (Nat × Option String)) (athlete : String) : Summary :=
  let isRookie := isRookieOf schema.rookieCol cards athlete
  match schema.numberingCol with
  | none => zeroSummary isRookie
  | some _ =>
    match joinRows cards parallels athlete with
    | [] => zeroSummary isRookie
    | rows => mkSummary isRookie rows

/-! ## Spec-side definitions

These definitions follow the wording of the specification sentences under
scrutiny (never the source); each claim comparing the spec's words with
the code is settled by relating one of these to the embedded source. -/

/-- Spec's reading of the parallel-pairing rule, per header in order: a
header containing `parallel` but not `numbering` with a non-empty cell
yields exactly one record, whose numbering is the row's cell under the
immediately following header if that header contains `numbering`, and the
empty string otherwise; an empty (or missing) cell yields no record. -/
def specScanParallels (row : Row) : List String → List ParallelRecord
  | [] => []
  | h :: rest =>
    (if isParallelHeader h && truthy (getCell row h) then
      [⟨orEmpty (getCell row h),
        match rest with
        | nh :: _ =>
          if strContains (lowerStr nh) "numbering" then getCell row nh
          else some ""
        | [] => some ""⟩]
    else []) ++ specScanParallels row rest

/-- Spec's claimed `cardTypeCount`: distinct card_type values after
trimming, excluding those empty after trim. -/
def specCardTypeCount (bd : List BEntry) : Nat :=
  ((bd.map (fun b => jsTrim b.cardType)).filter (fun s => !(s == ""))).dedup.length

/-- Spec's claimed autograph total: the part of the breakdown-group sum
coming from groups whose subset case-insensitively equals `autograph`. -/
def specGroupAutographSum (bd : List BEntry) : Int :=
  ((bd.filter (fun b => lowerStr b.subset == "autograph")).map
    (fun b => b.total)).sum

/-- Spec's reading of identity-field resolution as a fixed mapping of
fields to header names determined once per file: the first header name of
the priority list present among the file's headers supplies the value for
every row. -/
def specFixedLookup (headers priority : List String) (row : Row) : Option String :=
  match priority.find? (fun name => headers.contains name) with
  | some name => getCell row name
  | none => none

/-- Per-row first-non-empty resolution along a priority list, with the
JavaScript `||`-chain default: when every candidate cell is empty or
missing, the value of the last listed header is used as-is. -/
def priorityValue (row : Row) : List String → Option String
  | [] => none
  | [n] => getCell row n
  | n :: rest =>
    if truthy (getCell row n) then getCell row n else priorityValue row rest

/-- Row-level autograph test used by the aggregation loop. -/
def rowAutograph (r : JoinRow) : Bool :=
  lowerStr (orEmpty r.subset) == "autograph"

/-- Row-level autograph-relic test used by the aggregation loop. -/
def rowAutographRelic (r : JoinRow) : Bool :=
  lowerStr (orEmpty r.subset) == "autograph relic"

/-! ## Helper lemmas -/

theorem upsert_snd_sum (m : List (String × Int)) (k : String) (n : Int) :
    ((upsert m k n).map Prod.snd).sum = (m.map Prod.snd).sum + n := by
  induction m with
  | nil => simp [upsert]
  | cons p rest ih =>
    obtain ⟨k₁, v⟩ := p
    by_cases h : k₁ == k
    · simp [upsert, h]
      ring
    · simp [upsert, h, ih]
      ring

theorem aggStep_foldl_total (rows : List JoinRow) (st : AggState) :
    (rows.foldl aggStep st).totalNumbered =
      st.totalNumbered + (rows.map (fun r => jsToNum r.numbering)).sum := by
  induction rows generalizing st with
  | nil => simp
  | cons r rest ih =>
    simp only [List.foldl_cons, List.map_cons, List.sum_cons, ih, aggStep]
    ring

theorem aggStep_foldl_group_sum (rows : List JoinRow) (st : AggState) :
    ((rows.foldl aggStep st).group.map Prod.snd).sum =
      (st.group.map Prod.snd).sum + (rows.map (fun r => jsToNum r.numbering)).sum := by
  induction rows generalizing st with
  | nil => simp
  | cons r rest ih =>
    simp only [List.foldl_cons, List.map_cons, List.sum_cons, ih, aggStep,
      upsert_snd_sum]
    ring

theorem aggStep_foldl_autograph (rows : List JoinRow) (st : AggState) :
    (rows.foldl aggStep st).autographNumbered =
      st.autographNumbered +
        ((rows.filter rowAutograph).map (fun r => jsToNum r.numbering)).sum := by
  induction rows generalizing st with
  | nil => simp
  | cons r rest ih =>
    by_cases h : rowAutograph r
    · simp only [List.foldl_cons, List.filter_cons, h, List.map_cons,
        List.sum_cons, ih, aggStep, rowAutograph] at *
      simp [h]
      ring
    · simp only [List.foldl_cons, List.filter_cons, h, ih, aggStep,
        rowAutograph] at *
      simp [h]

theorem aggStep_foldl_autograph_relic (rows : List JoinRow) (st : AggState) :
    (rows.foldl aggStep st).autographRelicNumbered =
      st.autographRelicNumbered +
        ((rows.filter rowAutographRelic).map (fun r => jsToNum r.numbering)).sum := by
  induction rows generalizing st with
  | nil => simp
  | cons r rest ih =>
    by_cases h : rowAutographRelic r
    · simp only [List.foldl_cons, List.filter_cons, h, List.map_cons,
        List.sum_cons, ih, aggStep, rowAutographRelic] at *
      simp [h]
      ring
    · simp only [List.foldl_cons, List.filter_cons, h, ih, aggStep,
        rowAutographRelic] at *
      simp [h]

theorem entryOfKey_total (k : String) (t : Int) : (entryOfKey k t).total = t := by
  unfold entryOfKey
  split <;> rfl

theorem breakdownOf_totals (g : List (String × Int)) :
    (breakdownOf g).map BEntry.total = g.map Prod.snd := by
  unfold breakdownOf
  rw [List.map_map]
  apply List.map_congr_left
  intro p _
  simp [Function.comp, entryOfKey_total]

theorem rowAutograph_not_relic (r : JoinRow) :
    ¬(rowAutograph r = true ∧ rowAutographRelic r = true) := by
  rintro ⟨h₁, h₂⟩
  simp only [rowAutograph, rowAutographRelic, beq_iff_eq] at h₁ h₂
  rw [h₁] at h₂
  exact absurd h₂ (by decide)

theorem disjoint_filter_sums_le (rows : List JoinRow)
    (h : ∀ r ∈ rows, 0 ≤ jsToNum r.numbering) :
    ((rows.filter rowAutograph).map (fun r => jsToNum r.numbering)).sum +
      ((rows.filter rowAutographRelic).map (fun r => jsToNum r.numbering)).sum ≤
      (rows.map (fun r => jsToNum r.numbering)).sum := by
  induction rows with
  | nil => simp
  | cons r rest ih =>
    have hr : 0 ≤ jsToNum r.numbering := h r (List.mem_cons_self r rest)
    have hrest : ∀ x ∈ rest, 0 ≤ jsToNum x.numbering :=
      fun x hx => h x (List.mem_cons_of_mem r hx)
    have ihr := ih hrest
    by_cases h₁ : rowAutograph r
    · have h₂ : rowAutographRelic r = false := by
        cases h₂ : rowAutographRelic r
        · rfl
        · exact absurd ⟨h₁, h₂⟩ (rowAutograph_not_relic r)
      simp only [List.filter_cons, h₁, h₂, List.map_cons, List.sum_cons,
        if_true, if_false, Bool.false_eq_true]
      omega
    · by_cases h₂ : rowAutographRelic r
      · simp only [List.filter_cons, h₁, h₂, List.map_cons, List.sum_cons,
          if_true, if_false, Bool.false_eq_true]
        omega
      · simp only [List.filter_cons, h₁, h₂, List.map_cons, List.sum_cons,
          if_false, Bool.false_eq_true]
        omega

theorem sqlMax_from_some (l : List Nat) (m : Nat) :
    l.foldl
      (fun acc x =>
        match acc with
        | none => some x
        | some m₁ => some (max m₁ x))
      (some m) = some (l.foldl max m) := by
  induction l generalizing m with
  | nil => rfl
  | cons x rest ih => simp [List.foldl_cons, ih]

theorem foldl_max_eq_one (l : List Nat) (m : Nat)
    (hl : ∀ x ∈ l, x ≤ 1) (hm : m ≤ 1) :
    l.foldl max m = 1 ↔ m = 1 ∨ ∃ x ∈ l, x = 1 := by
  induction l generalizing m with
  | nil => simp
  | cons x rest ih =>
    have hx : x ≤ 1 := hl x (List.mem_cons_self x rest)
    have hrest : ∀ y ∈ rest, y ≤ 1 := fun y hy => hl y (List.mem_cons_of_mem x hy)
    have hmx : max m x ≤ 1 := by omega
    rw [List.foldl_cons, ih (max m x) hrest hmx]
    constructor
    · rintro (hmax | hex)
      · rcases (by omega : m = 1 ∨ x = 1) with h | h
        · exact Or.inl h
        · exact Or.inr ⟨x, List.mem_cons_self x rest, h⟩
      · rcases hex with ⟨y, hy, hy1⟩
        exact Or.inr ⟨y, List.mem_cons_of_mem x hy, hy1⟩
    · rintro (h | ⟨y, hy, hy1⟩)
      · exact Or.inl (by omega)
      · rcases List.mem_cons.mp hy with rfl | hy
        · exact Or.inl (by omega)
        · exact Or.inr ⟨y, hy, hy1⟩

theorem rookieCase_le_one (v : Option String) : rookieCase v ≤ 1 := by
  cases v with
  | none => decide
  | some s =>
    show (if lowerStr (sqlTrim s) == "rookie" then 1 else 0) ≤ 1
    by_cases h : lowerStr (sqlTrim s) == "rookie" <;> simp [h]

theorem rookieCase_eq_one (v : Option String) :
    rookieCase v = 1 ↔ ∃ s, v = some s ∧ lowerStr (sqlTrim s) = "rookie" := by
  cases v with
  | none => simp [rookieCase]
  | some s =>
    show (if lowerStr (sqlTrim s) == "rookie" then 1 else 0) = 1 ↔ _
    by_cases h : lowerStr (sqlTrim s) = "rookie"
    · simp [h]
    · simp [h]

theorem sqlMaxFlag_eq_one (cards : List DbCard) (athlete : String) :
    sqlMaxFlag cards athlete = some 1 ↔
      ∃ c ∈ cards, matchesAthlete c.athlete_name athlete = true ∧
        rookieCase c.rookieVal = 1 := by
  unfold sqlMaxFlag sqlMax
  cases hf : cards.filter (fun c => matchesAthlete c.athlete_name athlete) with
  | nil =>
    simp only [hf, List.map_nil, List.foldl_nil]
    constructor
    · intro h
      exact absurd h (by simp)
    · rintro ⟨c, hc, hmatch, _⟩
      have : c ∈ cards.filter (fun c => matchesAthlete c.athlete_name athlete) :=
        List.mem_filter.mpr ⟨hc, hmatch⟩
      rw [hf] at this
      exact absurd this (List.not_mem_nil c)
  | cons c₀ rest =>
    have hall : ∀ x ∈ (rest.map (fun c => rookieCase c.rookieVal)), x ≤ 1 := by
      intro x hx
      rcases List.mem_map.mp hx with ⟨c, _, rfl⟩
      exact rookieCase_le_one c.rookieVal
    rw [List.map_cons, List.foldl_cons]
    rw [sqlMax_from_some]
    rw [Option.some_inj]
    rw [foldl_max_eq_one _ _ hall (rookieCase_le_one c₀.rookieVal)]
    constructor
    · intro h
      have hmem : ∀ c, c ∈ c₀ :: rest →
          c ∈ cards ∧ matchesAthlete c.athlete_name athlete = true := by
        intro c hc
        have : c ∈ cards.filter (fun c => matchesAthlete c.athlete_name athlete) := by
          rw [hf]; exact hc
        exact List.mem_filter.mp this
      rcases h with h₀ | ⟨x, hx, hx1⟩
      · rcases hmem c₀ (List.mem_cons_self c₀ rest) with ⟨hc, hm⟩
        exact ⟨c₀, hc, hm, h₀⟩
      · rcases List.mem_map.mp hx with ⟨c, hc, rfl⟩
        rcases hmem c (List.mem_cons_of_mem c₀ hc) with ⟨hcc, hm⟩
        exact ⟨c, hcc, hm, hx1⟩
    · rintro ⟨c, hc, hm, hcase⟩
      have : c ∈ c₀ :: rest := by
        rw [← hf]
        exact List.mem_filter.mpr ⟨hc, hm⟩
      rcases List.mem_cons.mp this with rfl | hcr
      · exact Or.inl hcase
      · exact Or.inr ⟨rookieCase c.rookieVal, List.mem_map_of_mem _ hcr, hcase⟩

theorem summary_isRookie_eq (schema : SchemaInfo) (cards : List DbCard)
    (ps : List (Nat × Option String)) (athlete : String) :
    (athleteSummary schema cards ps athlete).isRookie =
      isRookieOf schema.rookieCol cards athlete := by
  unfold athleteSummary
  cases schema.numberingCol with
  | none => rfl
  | some c =>
    cases joinRows cards ps athlete with
    | nil => rfl
    | cons r rest => rfl

theorem flatten_map_nil {α β : Type} (l : List α) (f : α → List β)
    (hne : ∀ a ∈ l, f a ≠ []) (h : (l.map f).flatten = []) : l = [] := by
  cases l with
  | nil => rfl
  | cons a rest =>
    rw [List.map_cons, List.flatten_cons, List.append_eq_nil] at h
    exact absurd h.1 (hne a (List.mem_cons_self a rest))

theorem joinRows_nil_no_match (cards : List DbCard)
    (ps : List (Nat × Option String)) (athlete : String)
    (h : joinRows cards ps athlete = []) :
    cards.filter (fun c => matchesAthlete c.athlete_name athlete) = [] := by
  unfold joinRows at h
  apply flatten_map_nil _ _ _ h
  intro c _
  cases hp : parallelsFor ps c.id with
  | nil => simp
  | cons v rest => simp

theorem rookie_false_of_no_match (rookieCol : Option String) (cards : List DbCard)
    (athlete : String)
    (h : cards.filter (fun c => matchesAthlete c.athlete_name athlete) = []) :
    isRookieOf rookieCol cards athlete = false := by
  cases rookieCol with
  | none => rfl
  | some c =>
    unfold isRookieOf sqlMaxFlag
    rw [h]
    rfl

theorem count_true_lt_of_not_all (l : List Bool) (h : l.all id = false) :
    l.count true < l.length := by
  induction l with
  | nil => simp at h
  | cons x rest ih =>
    cases x with
    | false =>
      have h1 : (false :: rest).count true = rest.count true := by
        simp [List.count_cons]
      have h2 : rest.count true ≤ rest.length := List.count_le_length _ _
      rw [h1, List.length_cons]
      omega
    | true =>
      simp only [List.all_cons, id, Bool.true_and] at h
      have h2 := ih h
      have h1 : (true :: rest).count true = rest.count true + 1 := by
        simp [List.count_cons]
      rw [h1, List.length_cons]
      omega

theorem ingest_foldl_no_finish (l : List Bool) :
    ∀ (a e p : Nat) (f : Bool), l.count true < p →
      l.foldl ingestStep ⟨a, e, p, f⟩ =
        ⟨a + l.length, e + l.count false, p - l.count true, f⟩ := by
  induction l with
  | nil =>
    intro a e p f _
    simp
  | cons x rest ih =>
    intro a e p f h
    cases x with
    | true =>
      have hc : (true :: rest).count true = rest.count true + 1 := by
        simp [List.count_cons]
      rw [hc] at h
      have hp1 : (p - 1 == 0) = false := by
        simp only [beq_eq_false_iff_ne, ne_eq]
        omega
      have hstep : ingestStep ⟨a, e, p, f⟩ true = ⟨a + 1, e, p - 1, f⟩ := by
        simp [ingestStep, hp1]
      rw [List.foldl_cons, hstep, ih (a + 1) e (p - 1) f (by omega)]
      simp [List.count_cons, List.length_cons]
      omega
    | false =>
      have h1 : rest.count true < p := by
        have : (false :: rest).count true = rest.count true := by
          simp [List.count_cons]
        omega
      have hstep : ingestStep ⟨a, e, p, f⟩ false = ⟨a + 1, e + 1, p, f⟩ := by
        simp [ingestStep]
      rw [List.foldl_cons, hstep, ih (a + 1) (e + 1) p f h1]
      simp [List.count_cons, List.length_cons]
      omega

theorem ingest_foldl_all_finish (l : List Bool) :
    ∀ (a e : Nat) (f : Bool), l ≠ [] → l.all id = true →
      (l.foldl ingestStep ⟨a, e, l.length, f⟩).finalized = true := by
  induction l with
  | nil =>
    intro a e f hne _
    exact absurd rfl hne
  | cons x rest ih =>
    intro a e f _ hall
    simp only [List.all_cons, Bool.and_eq_true, id] at hall
    obtain ⟨hx, hrest⟩ := hall
    subst hx
    have hstep : ingestStep ⟨a, e, (true :: rest).length, f⟩ true =
        ⟨a + 1, e, rest.length, f || (rest.length == 0)⟩ := by
      simp [ingestStep, List.length_cons]
    rw [List.foldl_cons, hstep]
    cases rest with
    | nil => simp
    | cons y t =>
      exact ih (a + 1) e (f || ((y :: t).length == 0)) (by simp) hrest

theorem runIngestion_finalized_iff (l : List Bool) :
    (runIngestion l).finalized = l.all id := by
  cases l with
  | nil => rfl
  | cons x rest =>
    have hne : (x :: rest).isEmpty = false := rfl
    unfold runIngestion
    rw [hne]
    simp only [Bool.false_eq_true, if_false]
    cases hall : (x :: rest).all id with
    | false =>
      have hlt := count_true_lt_of_not_all _ hall
      rw [ingest_foldl_no_finish _ 0 0 _ false hlt]
    | true =>
      exact ingest_foldl_all_finish _ 0 0 false (by simp) hall

/-! ## Claim theorems -/

/-- C1: the claim says an upload with a failing Card write still completes
— failing rows logged and dropped, remaining rows processed, and
finalization (close, temp-file removal, response) still occurring.  The
code attempts every row and logs the failure, but the failing row's
callback returns before decrementing the pending countdown, so `pending`
never reaches zero and finalization never runs: on a two-row file whose
first Card insert fails, both rows are attempted and one error is logged,
yet `pending` ends at 1 and `finalized` is `false`.  In general the
finalization branch runs exactly when every row insert succeeded. -/
theorem ingestion_row_failure_never_finalizes :
    runIngestion [false, true] = ⟨2, 1, 1, false⟩ ∧
    ∀ l : List Bool, (runIngestion l).finalized = l.all id :=
  ⟨by decide, runIngestion_finalized_iff⟩

/-- C2 counterexample: the claim says `cardTypeCount` excludes card_type
values that are empty after trimming, but the code counts the distinct
trimmed values of the breakdown groups with the empty string included: a
store whose only matching card has a NULL `card_type` and one numbered
parallel yields `cardTypeCount = 1` where the claim demands 0. -/
theorem card_type_count_includes_empty_cex :
    (athleteSummary ⟨some "rookie", some "parallel_numbering"⟩
        [⟨1, some "Jane Doe", some "Base", none, none⟩] [(1, some "5")]
        "Jane Doe").cardTypeCount = 1 ∧
    specCardTypeCount (athleteSummary ⟨some "rookie", some "parallel_numbering"⟩
        [⟨1, some "Jane Doe", some "Base", none, none⟩] [(1, some "5")]
        "Jane Doe").breakdown = 0 ∧
    (athleteSummary ⟨some "rookie", some "parallel_numbering"⟩
        [⟨1, some "Jane Doe", some "Base", none, none⟩] [(1, some "5")]
        "Jane Doe").cardTypeCount ≠
      specCardTypeCount (athleteSummary ⟨some "rookie", some "parallel_numbering"⟩
        [⟨1, some "Jane Doe", some "Base", none, none⟩] [(1, some "5")]
        "Jane Doe").breakdown := by
  refine ⟨by decide, by decide, by decide⟩

/-- C2 amended: for every athlete-summary result, `cardTypeCount` equals
the number of distinct card_type values, after trimming, appearing across
the computed breakdown groups — a value empty after trim counting as one
distinct value (not excluded). -/
theorem card_type_count_distinct_trimmed (schema : SchemaInfo) (cards : List DbCard)
    (ps : List (Nat × Option String)) (athlete : String) :
    (athleteSummary schema cards ps athlete).cardTypeCount =
      ((athleteSummary schema cards ps athlete).breakdown.map
        (fun b => jsTrim b.cardType)).toFinset.card := by
  have hz : ∀ b : Bool, (zeroSummary b).cardTypeCount =
      ((zeroSummary b).breakdown.map (fun b₁ => jsTrim b₁.cardType)).toFinset.card := by
    intro b
    simp [zeroSummary]
  have hm : ∀ (b : Bool) (rows : List JoinRow), (mkSummary b rows).cardTypeCount =
      ((mkSummary b rows).breakdown.map (fun b₁ => jsTrim b₁.cardType)).toFinset.card := by
    intro b rows
    simp only [mkSummary, cardTypeCountOf]
    rw [List.card_toFinset]
  cases hn : schema.numberingCol with
  | none =>
    simp only [athleteSummary, hn]
    exact hz _
  | some c =>
    cases hj : joinRows cards ps athlete with
    | nil =>
      simp only [athleteSummary, hn, hj]
      exact hz _
    | cons r rest =>
      simp only [athleteSummary, hn, hj]
      exact hm _ _

/-- C3 counterexample: on a store for athlete `jane` with subsets
`autograph||x` (numbering 7), `autograph` (numbering 3) and `Base`
(numbering −10), the two autograph-region rows collide into one breakdown
group keyed `autograph||x||y`, so the sum over groups whose subset equals
`autograph` is 10 while the handler's `autographCount` is 3, and with the
negative numbering the claimed inequality
`autographCount + autographRelicCount ≤ totalParallelCards` fails
(3 + 0 ≤ 0 is false). -/
theorem autograph_totals_claim_cex :
    specGroupAutographSum (athleteSummary ⟨some "rookie", some "parallel_numbering"⟩
        [⟨1, some "Jane", some "autograph||x", some "y", none⟩,
         ⟨2, some "Jane", some "autograph", some "x||y", none⟩,
         ⟨3, some "Jane", some "Base", some "Base", none⟩]
        [(1, some "7"), (2, some "3"), (3, some "-10")] "jane").breakdown = 10 ∧
    (athleteSummary ⟨some "rookie", some "parallel_numbering"⟩
        [⟨1, some "Jane", some "autograph||x", some "y", none⟩,
         ⟨2, some "Jane", some "autograph", some "x||y", none⟩,
         ⟨3, some "Jane", some "Base", some "Base", none⟩]
        [(1, some "7"), (2, some "3"), (3, some "-10")] "jane").autographCount = 3 ∧
    ¬((athleteSummary ⟨some "rookie", some "parallel_numbering"⟩
        [⟨1, some "Jane", some "autograph||x", some "y", none⟩,
         ⟨2, some "Jane", some "autograph", some "x||y", none⟩,
         ⟨3, some "Jane", some "Base", some "Base", none⟩]
        [(1, some "7"), (2, some "3"), (3, some "-10")] "jane").autographCount +
      (athleteSummary ⟨some "rookie", some "parallel_numbering"⟩
        [⟨1, some "Jane", some "autograph||x", some "y", none⟩,
         ⟨2, some "Jane", some "autograph", some "x||y", none⟩,
         ⟨3, some "Jane", some "Base", some "Base", none⟩]
        [(1, some "7"), (2, some "3"), (3, some "-10")] "jane").autographRelicCount ≤
      (athleteSummary ⟨some "rookie", some "parallel_numbering"⟩
        [⟨1, some "Jane", some "autograph||x", some "y", none⟩,
         ⟨2, some "Jane", some "autograph", some "x||y", none⟩,
         ⟨3, some "Jane", some "Base", some "Base", none⟩]
        [(1, some "7"), (2, some "3"), (3, some "-10")] "jane").totalParallelCards) := by
  refine ⟨by decide, by decide, by decide⟩

/-- C3 amended: for every store and athlete (with a detected numbering
column), `totalParallelCards` equals the sum of per-group breakdown
totals; `autographCount` and `autographRelicCount` equal the sums of
coerced numbering over the join rows whose subset case-insensitively
equals exactly `autograph` resp. `autograph relic`; and when every join
row's coerced numbering is non-negative,
`autographCount + autographRelicCount ≤ totalParallelCards`. -/
theorem summary_totals_decomposition (rookieCol : Option String) (numCol : String)
    (cards : List DbCard) (ps : List (Nat × Option String)) (athlete : String) :
    (athleteSummary ⟨rookieCol, some numCol⟩ cards ps athlete).totalParallelCards =
      ((athleteSummary ⟨rookieCol, some numCol⟩ cards ps athlete).breakdown.map
        BEntry.total).sum ∧
    (athleteSummary ⟨rookieCol, some numCol⟩ cards ps athlete).autographCount =
      (((joinRows cards ps athlete).filter rowAutograph).map
        (fun r => jsToNum r.numbering)).sum ∧
    (athleteSummary ⟨rookieCol, some numCol⟩ cards ps athlete).autographRelicCount =
      (((joinRows cards ps athlete).filter rowAutographRelic).map
        (fun r => jsToNum r.numbering)).sum ∧
    ((∀ r ∈ joinRows cards ps athlete, 0 ≤ jsToNum r.numbering) →
      (athleteSummary ⟨rookieCol, some numCol⟩ cards ps athlete).autographCount +
        (athleteSummary ⟨rookieCol, some numCol⟩ cards ps athlete).autographRelicCount ≤
        (athleteSummary ⟨rookieCol, some numCol⟩ cards ps athlete).totalParallelCards) := by
  cases hj : joinRows cards ps athlete with
  | nil =>
    simp only [athleteSummary, hj]
    simp [zeroSummary]
  | cons r rest =>
    have h1 : (aggregate (r :: rest)).totalNumbered =
        ((r :: rest).map (fun x => jsToNum x.numbering)).sum := by
      unfold aggregate
      rw [aggStep_foldl_total]
      simp
    have h2 : ((aggregate (r :: rest)).group.map Prod.snd).sum =
        ((r :: rest).map (fun x => jsToNum x.numbering)).sum := by
      unfold aggregate
      rw [aggStep_foldl_group_sum]
      simp
    have h3 : (aggregate (r :: rest)).autographNumbered =
        (((r :: rest).filter rowAutograph).map (fun x => jsToNum x.numbering)).sum := by
      unfold aggregate
      rw [aggStep_foldl_autograph]
      simp
    have h4 : (aggregate (r :: rest)).autographRelicNumbered =
        (((r :: rest).filter rowAutographRelic).map
          (fun x => jsToNum x.numbering)).sum := by
      unfold aggregate
      rw [aggStep_foldl_autograph_relic]
      simp
    simp only [athleteSummary, hj]
    refine ⟨?_, ?_, ?_, ?_⟩
    · simp only [mkSummary]
      rw [breakdownOf_totals, h2, h1]
    · simp only [mkSummary]
      exact h3
    · simp only [mkSummary]
      exact h4
    · intro hpos
      simp only [mkSummary]
      rw [h3, h4, h1]
      exact disjoint_filter_sums_le _ hpos

/-- C3 amended, witness: the end-to-end Jane Doe store has non-negative
numbering, and the amended inequality holds there. -/
theorem summary_totals_decomposition_witness :
    (∀ r ∈ joinRows [DbCard.mk 1 (some "Jane Doe") (some "Base") (some "Base")
          (some "Rookie")] [(1, some "25")] "Jane Doe",
        0 ≤ jsToNum r.numbering) ∧
    (athleteSummary ⟨some "rookie", some "parallel_numbering"⟩
        [DbCard.mk 1 (some "Jane Doe") (some "Base") (some "Base") (some "Rookie")]
        [(1, some "25")] "Jane Doe").autographCount +
      (athleteSummary ⟨some "rookie", some "parallel_numbering"⟩
        [DbCard.mk 1 (some "Jane Doe") (some "Base") (some "Base") (some "Rookie")]
        [(1, some "25")] "Jane Doe").autographRelicCount ≤
      (athleteSummary ⟨some "rookie", some "parallel_numbering"⟩
        [DbCard.mk 1 (some "Jane Doe") (some "Base") (some "Base") (some "Rookie")]
        [(1, some "25")] "Jane Doe").totalParallelCards :=
  ⟨by decide,
    (summary_totals_decomposition (some "rookie") "parallel_numbering"
      [DbCard.mk 1 (some "Jane Doe") (some "Base") (some "Base") (some "Rookie")]
      [(1, some "25")] "Jane Doe").2.2.2 (by decide)⟩

/-- C4: the ingestion parallel scan agrees, header by header, with the
spec's pairing rule: a header containing `parallel` but not `numbering`
with a non-empty cell yields exactly one Parallel record whose numbering
is the row's cell under the immediately following header when that header
contains `numbering` and the empty string otherwise, and an empty or
missing cell yields no record for that header. -/
theorem parallel_pairing_matches_spec (row : Row) (headers : List String) :
    scanParallels row headers = specScanParallels row headers := by
  induction headers with
  | nil => rfl
  | cons h rest ih =>
    simp only [scanParallels, specScanParallels, ih]
    congr 1
    by_cases hp : isParallelHeader h
    · cases hg : getCell row h with
      | none => simp [hp, hg, truthy]
      | some name =>
        by_cases hn : name == ""
        · simp [hp, hg, truthy, hn]
        · simp [hp, hg, truthy, hn, orEmpty]
    · simp [hp]

/-- C5: the summary's rookie flag does not depend on the parallels table;
with no detected rookie column it is `false`; with a detected column it is
`true` exactly when some card whose athlete name matches the athlete
case-insensitively has the column's value, space-trimmed and lower-cased,
equal to `rookie`; and a value `"ROOKIE "` with a trailing space counts. -/
theorem rookie_flag_characterization (cards : List DbCard) (athlete : String)
    (col : String) (schema : SchemaInfo) (ps qs : List (Nat × Option String)) :
    (athleteSummary schema cards ps athlete).isRookie =
      (athleteSummary schema cards qs athlete).isRookie ∧
    isRookieOf none cards athlete = false ∧
    (isRookieOf (some col) cards athlete = true ↔
      ∃ c ∈ cards, matchesAthlete c.athlete_name athlete = true ∧
        ∃ s, c.rookieVal = some s ∧ lowerStr (sqlTrim s) = "rookie") ∧
    rookieCase (some "ROOKIE ") = 1 := by
  refine ⟨?_, rfl, ?_, by decide⟩
  · rw [summary_isRookie_eq, summary_isRookie_eq]
  · simp only [isRookieOf, beq_iff_eq]
    rw [sqlMaxFlag_eq_one]
    constructor
    · rintro ⟨c, hc, hm, hcase⟩
      exact ⟨c, hc, hm, (rookieCase_eq_one _).mp hcase⟩
    · rintro ⟨c, hc, hm, s, hs, hr⟩
      exact ⟨c, hc, hm, (rookieCase_eq_one _).mpr ⟨s, hs, hr⟩⟩

/-- C6 counterexample: with both `athlete_full_name` and `athlete_name`
columns present, a row with an empty `athlete_full_name` cell resolves to
the `athlete_name` value — the resolution is per-row on cell values, not a
fixed once-per-file mapping of fields to header names, which would have
produced the empty `athlete_full_name` value. -/
theorem identity_resolution_fixed_mapping_cex :
    resolveAthlete [("athlete_full_name", ""), ("athlete_name", "Carl")] = some "Carl" ∧
    specFixedLookup ["athlete_full_name", "athlete_name"]
      ["athlete_full_name", "athlete_name", "athlete"]
      [("athlete_full_name", ""), ("athlete_name", "Carl")] = some "" ∧
    resolveAthlete [("athlete_full_name", ""), ("athlete_name", "Carl")] ≠
      specFixedLookup ["athlete_full_name", "athlete_name"]
        ["athlete_full_name", "athlete_name", "athlete"]
        [("athlete_full_name", ""), ("athlete_name", "Carl")] := by
  refine ⟨by decide, by decide, by decide⟩

/-- C6 amended: each Card's athlete name is resolved per row as the first
non-empty cell among `athlete_full_name`, `athlete_name`, `athlete`
(falling back to the last candidate's value when all are empty or
missing), the card type likewise from `type` then `card_type`, and
`card_number`, `rookie`, `subset` come from the exact normalized header
name only. -/
theorem identity_resolution_per_row (row : Row) :
    cardOfRow row = ⟨getCell row "card_number",
      priorityValue row ["athlete_full_name", "athlete_name", "athlete"],
      getCell row "rookie", getCell row "subset",
      priorityValue row ["type", "card_type"]⟩ := rfl

/-- C7: with no detected numbering column the summary is the zero-filled
shape (carrying the separately computed rookie flag), and when zero rows
match the athlete the summary is the zero-filled shape with
`isRookie = false`; both are normal returns of the total handler, never an
error. -/
theorem summary_soft_fail_zero_shape (schema : SchemaInfo) (rookieCol : Option String)
    (cards : List DbCard) (ps : List (Nat × Option String)) (athlete : String) :
    athleteSummary ⟨rookieCol, none⟩ cards ps athlete =
      zeroSummary (isRookieOf rookieCol cards athlete) ∧
    (joinRows cards ps athlete = [] →
      athleteSummary schema cards ps athlete = zeroSummary false) := by
  constructor
  · rfl
  · intro hj
    have hfil := joinRows_nil_no_match cards ps athlete hj
    have hrf := rookie_false_of_no_match schema.rookieCol cards athlete hfil
    cases hn : schema.numberingCol with
    | none => simp [athleteSummary, hn, hrf]
    | some c => simp [athleteSummary, hn, hj, hrf]

/-- C7 witness: an empty store queried for `Jane` returns the zero-filled
summary with `isRookie = false`. -/
theorem summary_soft_fail_zero_shape_witness :
    athleteSummary ⟨some "rookie", some "parallel_numbering"⟩ [] [] "Jane" =
      zeroSummary false :=
  (summary_soft_fail_zero_shape ⟨some "rookie", some "parallel_numbering"⟩ none
    [] [] "Jane").2 rfl

/-- C8: `detectSchema` returns `rookie` on the cards table whenever a
column of that name exists, falling back to the legacy `is_rookie` only
when `rookie` is absent and to none when neither exists, and analogously
prefers `parallel_numbering` over `numbering` on the parallels table; a
store with neither column still yields the degraded zero summary rather
than aborting. -/
theorem detect_schema_preferences (cardsCols parCols : List String)
    (cards : List DbCard) (ps : List (Nat × Option String)) (athlete : String) :
    ((detectSchema cardsCols parCols).rookieCol = some "rookie" ↔
      hasCol cardsCols "rookie" = true) ∧
    ((detectSchema cardsCols parCols).rookieCol = some "is_rookie" ↔
      (hasCol cardsCols "rookie" = false ∧ hasCol cardsCols "is_rookie" = true)) ∧
    ((detectSchema cardsCols parCols).rookieCol = none ↔
      (hasCol cardsCols "rookie" = false ∧ hasCol cardsCols "is_rookie" = false)) ∧
    ((detectSchema cardsCols parCols).numberingCol = some "parallel_numbering" ↔
      hasCol parCols "parallel_numbering" = true) ∧
    ((detectSchema cardsCols parCols).numberingCol = some "numbering" ↔
      (hasCol parCols "parallel_numbering" = false ∧
        hasCol parCols "numbering" = true)) ∧
    ((detectSchema cardsCols parCols).numberingCol = none ↔
      (hasCol parCols "parallel_numbering" = false ∧
        hasCol parCols "numbering" = false)) ∧
    athleteSummary ⟨none, none⟩ cards ps athlete = zeroSummary false := by
  have hne₁ : ("is_rookie" : String) ≠ "rookie" := by decide
  have hne₂ : ("numbering" : String) ≠ "parallel_numbering" := by decide
  cases h1 : hasCol cardsCols "rookie" <;> cases h2 : hasCol cardsCols "is_rookie" <;>
    cases h3 : hasCol parCols "parallel_numbering" <;>
    cases h4 : hasCol parCols "numbering" <;>
    simp [detectSchema, h1, h2, h3, h4, hne₁, hne₂, Ne.symm hne₁, Ne.symm hne₂] <;>
    rfl

/-- C9: the upload handler deletes any existing store for the sanitized
(sport, set) pair before any row write (the delete is the first effect and
never recurs among the writes), the resulting store does not depend on
what store previously existed, and re-uploading the same file over its own
result reproduces the identical store. -/
theorem upload_whole_file_replace (prev : Option Store) (headers : List String)
    (rows : List Row) :
    uploadEffects true headers rows =
      UploadEffect.deleteOldStore :: uploadEffects false headers rows ∧
    UploadEffect.deleteOldStore ∉ uploadEffects false headers rows ∧
    uploadChecklist prev headers rows = uploadChecklist none headers rows ∧
    uploadChecklist (some (uploadChecklist prev headers rows)) headers rows =
      uploadChecklist prev headers rows := by
  refine ⟨rfl, ?_, rfl, rfl⟩
  intro hmem
  simp only [uploadEffects, Bool.false_eq_true, if_false, List.nil_append] at hmem
  rcases List.mem_append.mp hmem with h | h
  · simp at h
  · rcases List.mem_flatten.mp h with ⟨l, hl, hmem₂⟩
    rcases List.mem_map.mp hl with ⟨p, _, rfl⟩
    rcases List.mem_cons.mp hmem₂ with h₂ | h₂
    · simp at h₂
    · rcases List.mem_map.mp h₂ with ⟨q, _, h₃⟩
      simp at h₃

/-- C10: when the parallels table lacks both recognized numbering column
names, the zero-filled summary still carries the rookie flag computed from
the cards table — which can be `true` — instead of forcing it to `false`
along with the zeroed counts. -/
theorem zero_summary_carries_rookie (rookieCol : Option String) (cards : List DbCard)
    (ps : List (Nat × Option String)) (athlete : String) :
    athleteSummary ⟨rookieCol, none⟩ cards ps athlete =
      zeroSummary (isRookieOf rookieCol cards athlete) ∧
    (athleteSummary ⟨some "rookie", none⟩
        [DbCard.mk 1 (some "Jane") none none (some "Rookie")] [] "jane").isRookie =
      true :=
  ⟨rfl, by decide⟩

end Spin
